import Mathlib

/-!
Verification of the qmaster backup system's core against its specification.

This file shallowly embeds the retention planning pipeline
(`src/utils/retention_manager.py`), the backup/restore control flow of the
backup engine (`src/core/backup_engine.py`), the archive member filters and
the finalization sequence, and proves or refutes the frozen claims about
them.  Machine integers are modelled as `Int`/`Nat` (Python ints are
unbounded); Python `datetime` values are modelled as integer epoch seconds,
with the calendar functions (`date()`, `isocalendar()`, `.year`, `.month`)
implemented by the standard civil-calendar algorithms so that they are
executable.  Filesystem and subprocess effects are modelled by explicit
state/outcome records; the environments record which effectful steps
succeed or raise.
-/

namespace QMaster

/-! ## Calendar arithmetic

`datetime` values carried by backup records are modelled as integer epoch
seconds (naive, day boundaries at multiples of 86400).  `timedelta.days` is
floor division, which is `Int.fdiv` in Lean.  The civil-from-day and
day-from-civil conversions are the standard era-based algorithms; they model
`datetime.date`'s proleptic Gregorian calendar. -/

/-- Day number of a timestamp: models `datetime.timestamp().date()` as days
since the epoch (floor division, matching Python's floor semantics). -/
def dayOfTs (ts : Int) : Int := ts.fdiv 86400

/-- Hour slot of a timestamp (used only by the claim's hourly-bucket model;
the source has no hourly bucket). -/
def hourOfTs (ts : Int) : Int := ts.fdiv 3600

/-- Convert a day number (days since 1970-01-01) to a civil date
`(year, month, day)` in the proleptic Gregorian calendar. -/
def civilFromDay (z : Int) : Int × Nat × Nat :=
  let z := z + 719468
  let era : Int := z.fdiv 146097
  let doe : Nat := (z - era * 146097).toNat
  let yoe : Nat := (doe - doe / 1460 + doe / 36524 - doe / 146096) / 365
  let y : Int := (yoe : Int) + era * 400
  let doy : Nat := doe - (365 * yoe + yoe / 4 - yoe / 100)
  let mp : Nat := (5 * doy + 2) / 153
  let d : Nat := doy - (153 * mp + 2) / 5 + 1
  let m : Nat := if mp < 10 then mp + 3 else mp - 9
  (if m ≤ 2 then y + 1 else y, m, d)

/-- Convert a civil date to its day number (inverse of `civilFromDay`). -/
def dayFromCivil (y : Int) (m : Nat) (d : Nat) : Int :=
  let y2 : Int := if m ≤ 2 then y - 1 else y
  let era : Int := y2.fdiv 400
  let yoe : Nat := (y2 - era * 400).toNat
  let doy : Nat := (153 * (if m > 2 then m - 3 else m + 9) + 2) / 5 + d - 1
  let doe : Nat := yoe * 365 + yoe / 4 - yoe / 100 + doy
  era * 146097 + (doe : Int) - 719468

/-- Calendar year of a timestamp: models `datetime.year`. -/
def yearOfTs (ts : Int) : Int := (civilFromDay (dayOfTs ts)).1

/-- Calendar `(year, month)` of a timestamp: models
`(datetime.year, datetime.month)`. -/
def monthKeyOfTs (ts : Int) : Int × Nat :=
  let c := civilFromDay (dayOfTs ts)
  (c.1, c.2.1)

/-- ISO weekday of a day number, Monday = 1 .. Sunday = 7.  Day 0
(1970-01-01) was a Thursday. -/
def isoWeekday (day : Int) : Nat := ((day + 3).emod 7).toNat + 1

/-- ISO `(year, week)` of a day number: models `datetime.isocalendar()[:2]`.
The ISO year/week of a date are those of the Thursday of its week. -/
def isoKeyOfDay (day : Int) : Int × Nat :=
  let th := day + 4 - (isoWeekday day : Int)
  let y := (civilFromDay th).1
  let jan1 := dayFromCivil y 1 1
  (y, (th - jan1).toNat / 7 + 1)

/-- ISO `(year, week)` of a timestamp. -/
def isoKeyOfTs (ts : Int) : Int × Nat := isoKeyOfDay (dayOfTs ts)

example : civilFromDay 0 = (1970, 1, 1) := by decide
example : civilFromDay 11016 = (2000, 2, 29) := by decide
example : civilFromDay 20738 = (2026, 10, 12) := by decide
example : civilFromDay 10956 = (1999, 12, 31) := by decide
example : civilFromDay 19782 = (2024, 2, 29) := by decide
example : dayFromCivil 2026 10 12 = 20738 := by decide
example : dayFromCivil 1970 1 1 = 0 := by decide
example : isoKeyOfDay 0 = (1970, 1) := by decide
example : isoKeyOfDay 20738 = (2026, 42) := by decide
example : isoKeyOfDay 18624 = (2020, 53) := by decide
example : isoKeyOfDay 18628 = (2020, 53) := by decide
example : isoKeyOfDay 10956 = (1999, 52) := by decide
example : isoKeyOfDay 2712 = (1977, 22) := by decide

/-! ## Retention data model (`src/utils/retention_manager.py`)

A backup record as produced by `_get_backups_with_metadata`: file name,
timestamp (metadata timestamp, falling back to mtime), size, and the
metadata fields from which the `tagged` flag is computed. -/

/-- Value of `UNCATEGORIZED_ARCHIVE_KEEP` in `retention_manager.py`. -/
def UNCATEGORIZED_ARCHIVE_KEEP : Nat := 3

/-- Metadata sidecar fields consulted by `_get_backups_with_metadata`.
`importance = none` models a metadata file without an `importance` key
(`metadata.get("importance")` returning `None`). -/
structure Metadata where
  tags : List String
  keepForever : Bool
  pinned : Bool
  importance : Option String
deriving DecidableEq, Repr

/-- The `tagged` computation of `_get_backups_with_metadata` (lines
164-169): non-empty tags, `keep_forever`, `pinned`, or an importance other
than `None`/`"normal"`. -/
def taggedOf (m : Metadata) : Bool :=
  !m.tags.isEmpty || m.keepForever || m.pinned ||
    !(m.importance == none || m.importance == some "normal")

/-- One backup record in the retention pipeline. -/
structure Record where
  name : String
  ts : Int
  size : Nat
  meta : Metadata
deriving DecidableEq, Repr

/-- The record's `tagged` field, derived from its metadata exactly as
`_get_backups_with_metadata` does. -/
def Record.tagged (r : Record) : Bool := taggedOf r.meta

/-- The five retention tier names, in the source's precedence order. -/
inductive TierName where
  | hourly | daily | weekly | monthly | yearly
deriving DecidableEq, Repr

/-- A tier's configuration: its keep-count (`"keep"` key) and its age
window (`"max_age_hours"` / `"max_age_days"` / `"max_age_weeks"` /
`"max_age_months"` / `"max_age_years"` respectively).  Both keys are
modelled as present, as in `RetentionManager.DEFAULT_TIERS`. -/
structure TierCfg where
  keep : Nat
  maxAge : Nat
deriving DecidableEq, Repr

/-- A tier configuration dict: for each of the five tier names, its
configuration or `none` if the name is absent from the dict. -/
structure Tiers where
  hourly : Option TierCfg
  daily : Option TierCfg
  weekly : Option TierCfg
  monthly : Option TierCfg
  yearly : Option TierCfg
deriving DecidableEq, Repr

/-- Lookup of a tier name in the configuration dict. -/
def Tiers.get (t : Tiers) : TierName → Option TierCfg
  | .hourly => t.hourly
  | .daily => t.daily
  | .weekly => t.weekly
  | .monthly => t.monthly
  | .yearly => t.yearly

/-- The source's `tier_order` list, restricted to the tiers present in the
configuration (the loop does `if tier_name not in tiers: continue`). -/
def tierCfgList (t : Tiers) : List (TierName × TierCfg) :=
  ([TierName.hourly, .daily, .weekly, .monthly, .yearly]).filterMap
    fun tn => (t.get tn).map fun cfg => (tn, cfg)

/-- Age-window test of `_categorize_into_tiers` (lines 212-240): hourly
compares `age.total_seconds()` against hours, the other tiers compare
`age.days` (floor division by 86400) against their window in days. -/
def fitsWindow (now : Int) (tn : TierName) (cfg : TierCfg) (r : Record) : Bool :=
  match tn with
  | .hourly => now - r.ts ≤ (cfg.maxAge : Int) * 3600
  | .daily => (now - r.ts).fdiv 86400 ≤ (cfg.maxAge : Int)
  | .weekly => (now - r.ts).fdiv 86400 ≤ (cfg.maxAge : Int) * 7
  | .monthly => (now - r.ts).fdiv 86400 ≤ (cfg.maxAge : Int) * 30
  | .yearly => (now - r.ts).fdiv 86400 ≤ (cfg.maxAge : Int) * 365

/-- Period-bucket equality used by the source's `existing` checks: one per
calendar day (daily), per ISO week (weekly), per calendar month (monthly),
per calendar year (yearly).  The source has NO bucket check for the hourly
tier (line 212: the hourly branch tests only the age window), so two
records in the same hour slot do not collide. -/
def sameBucket (tn : TierName) (a b : Record) : Bool :=
  match tn with
  | .hourly => false
  | .daily => dayOfTs a.ts == dayOfTs b.ts
  | .weekly => isoKeyOfTs a.ts == isoKeyOfTs b.ts
  | .monthly => monthKeyOfTs a.ts == monthKeyOfTs b.ts
  | .yearly => yearOfTs a.ts == yearOfTs b.ts

/-- Bucket check against the records already in the tier's list: models
`existing = [b for b in tiered[tier] if key(b) == key(backup)]` followed by
`if not existing`. -/
def bucketFree (tn : TierName) (acc : List Record) (b : Record) : Bool :=
  acc.all fun x => !sameBucket tn x b

/-- One tier pass of `_categorize_into_tiers` (lines 203-245): iterate the
full record list, skip records whose name is already assigned, and assign a
record to this tier when its age window fits and the tier's period bucket
is free.  Returns the tier's list (in iteration order) and the extended
assigned-name set. -/
def tierPass (now : Int) (tn : TierName) (cfg : TierCfg) :
    List Record → List String → List Record → List Record × List String
  | [], assigned, acc => (acc, assigned)
  | b :: rest, assigned, acc =>
    if assigned.contains b.name then
      tierPass now tn cfg rest assigned acc
    else if fitsWindow now tn cfg b && bucketFree tn acc b then
      tierPass now tn cfg rest (b.name :: assigned) (acc ++ [b])
    else
      tierPass now tn cfg rest assigned acc

/-- The tier loop of `_categorize_into_tiers`: process the present tiers in
precedence order, each pass scanning the full record list with the shared
assigned-name set. -/
def catLoop (now : Int) :
    List (TierName × TierCfg) → List Record → List String →
      List (TierName × List Record) × List String
  | [], _, assigned => ([], assigned)
  | (tn, cfg) :: rest, backups, assigned =>
    let p := tierPass now tn cfg backups assigned []
    let r := catLoop now rest backups p.2
    ((tn, p.1) :: r.1, r.2)

/-- `_categorize_into_tiers` (lines 183-253): returns the per-tier lists
(for the tiers present in the configuration, in precedence order) and the
uncategorized records (those whose name was never assigned, in input
order). -/
def categorizeIntoTiers (now : Int) (tiers : Tiers) (backups : List Record) :
    List (TierName × List Record) × List Record :=
  let r := catLoop now (tierCfgList tiers) backups []
  (r.1, backups.filter fun b => !r.2.contains b.name)

/-! ## Record-first characterization of the categorization

The claim describes the categorization record-by-record: each record goes
to the first tier in precedence order whose window it fits and whose bucket
is not yet occupied.  `rfRun` below is that record-first algorithm; we prove
it equal to the source's tier-by-tier loop.  `greedy`/`peelCat` is the
intermediate form used by the equivalence proof: one greedy pass per tier
over the records not taken by earlier tiers. -/

/-- Bucket check relative to an arbitrary bucket-equality function (used to
state both the source's semantics and the claim's hourly-bucket variant). -/
def bucketFreeWith (sb : TierName → Record → Record → Bool)
    (tn : TierName) (acc : List Record) (b : Record) : Bool :=
  acc.all fun x => !sb tn x b

/-- Greedy single-tier pass over a record list: take each record whose
window fits and whose bucket is free, return the tier list and the leftover
records in order. -/
def greedy (sb : TierName → Record → Record → Bool) (now : Int)
    (tn : TierName) (cfg : TierCfg) :
    List Record → List Record → List Record × List Record
  | [], acc => (acc, [])
  | b :: rest, acc =>
    if fitsWindow now tn cfg b && bucketFreeWith sb tn acc b then
      greedy sb now tn cfg rest (acc ++ [b])
    else
      let r := greedy sb now tn cfg rest acc
      (r.1, b :: r.2)

/-- Tier-by-tier peeling: run the greedy pass for each tier on the records
left over by the earlier tiers; the final leftover is uncategorized. -/
def peelCat (sb : TierName → Record → Record → Bool) (now : Int) :
    List (TierName × TierCfg) → List Record →
      List (TierName × List Record) × List Record
  | [], backups => ([], backups)
  | (tn, cfg) :: rest, backups =>
    let g := greedy sb now tn cfg backups []
    let r := peelCat sb now rest g.2
    ((tn, g.1) :: r.1, r.2)

/-- Insert one record into the first tier (in state order) whose window
fits and whose bucket is free; `none` if no tier takes it. -/
def rfInsert (sb : TierName → Record → Record → Bool) (now : Int) (b : Record) :
    List (TierName × TierCfg × List Record) →
      Option (List (TierName × TierCfg × List Record))
  | [] => none
  | (tn, cfg, acc) :: rest =>
    if fitsWindow now tn cfg b && bucketFreeWith sb tn acc b then
      some ((tn, cfg, acc ++ [b]) :: rest)
    else
      match rfInsert sb now b rest with
      | some rest2 => some ((tn, cfg, acc) :: rest2)
      | none => none

/-- Record-first categorization: process the records in order, each going
to its first fitting tier or to the uncategorized list. -/
def rfRun (sb : TierName → Record → Record → Bool) (now : Int) :
    List (TierName × TierCfg × List Record) → List Record →
      List (TierName × TierCfg × List Record) × List Record
  | state, [] => (state, [])
  | state, b :: rest =>
    match rfInsert sb now b state with
    | some state2 => rfRun sb now state2 rest
    | none =>
      let r := rfRun sb now state rest
      (r.1, b :: r.2)

/-- Record-first categorization packaged with the same output shape as
`categorizeIntoTiers`, relative to a bucket-equality function. -/
def recordFirstCatWith (sb : TierName → Record → Record → Bool)
    (now : Int) (tiers : Tiers) (backups : List Record) :
    List (TierName × List Record) × List Record :=
  let r := rfRun sb now
    ((tierCfgList tiers).map fun p => (p.1, p.2, ([] : List Record))) backups
  (r.1.map fun s => (s.1, s.2.2), r.2)

/-- The record-first categorization with the source's buckets (no hourly
bucket). -/
def recordFirstCat (now : Int) (tiers : Tiers) (backups : List Record) :
    List (TierName × List Record) × List Record :=
  recordFirstCatWith sameBucket now tiers backups

/-- The claim's bucket-equality function: like the source's, but with an
hour-slot bucket for the hourly tier, as the claim asserts. -/
def sameBucketClaim (tn : TierName) (a b : Record) : Bool :=
  match tn with
  | .hourly => hourOfTs a.ts == hourOfTs b.ts
  | _ => sameBucket tn a b

/-- The categorization the claim describes: record-first, first fitting
tier, with a period bucket for every tier including hourly. -/
def claimCat (now : Int) (tiers : Tiers) (backups : List Record) :
    List (TierName × List Record) × List Record :=
  recordFirstCatWith sameBucketClaim now tiers backups

/-! ## Retention rules (`_apply_retention_rules`, lines 255-289) -/

/-- Insertion step of a stable descending sort by timestamp: `b` is placed
before the first element whose timestamp it is greater than or equal to.
Since `b` originally precedes every element it is inserted into, ties keep
their original order, matching Python's stable `sort(reverse=True)`. -/
def insertTsDesc (b : Record) : List Record → List Record
  | [] => [b]
  | c :: rest => if b.ts ≥ c.ts then b :: c :: rest else c :: insertTsDesc b rest

/-- Stable descending sort by timestamp (models Python's stable
`list.sort(key=lambda x: x["timestamp"], reverse=True)`). -/
def sortTsDesc : List Record → List Record
  | [] => []
  | b :: rest => insertTsDesc b (sortTsDesc rest)

/-- The per-tier keep/delete split (lines 271-276): walking the tier's
sorted list with index `i`, keep when `(preserve_tagged and tagged) or
i < keep_count`, else delete. -/
def splitTier (preserve : Bool) (keepCount : Nat) :
    List Record → Nat → List Record × List Record
  | [], _ => ([], [])
  | b :: rest, i =>
    let r := splitTier preserve keepCount rest (i + 1)
    if (preserve && b.tagged) || i < keepCount then (b :: r.1, r.2)
    else (r.1, b :: r.2)

/-- The uncategorized keep/delete split (lines 279-287): tagged records are
kept when `preserve_tagged`; otherwise keep until the archival floor
(`UNCATEGORIZED_ARCHIVE_KEEP`) of kept uncategorized records is reached.
Both kept kinds count toward the floor, as in the source's
`len([b for b in keep_list if b.get("tier") == "uncategorized"])`. -/
def uncatSplit (preserve : Bool) :
    List Record → Nat → List Record × List Record
  | [], _ => ([], [])
  | b :: rest, kept =>
    if preserve && b.tagged then
      let r := uncatSplit preserve rest (kept + 1)
      (b :: r.1, r.2)
    else if kept < UNCATEGORIZED_ARCHIVE_KEEP then
      let r := uncatSplit preserve rest (kept + 1)
      (b :: r.1, r.2)
    else
      let r := uncatSplit preserve rest kept
      (r.1, b :: r.2)

/-- `_apply_retention_rules`: for each configured tier, re-sort its list
newest-first and split with its keep-count; then split the uncategorized
list.  Returns `(keep, delete)`. -/
def applyRetentionRules (cfgs : List (TierName × TierCfg))
    (tiered : List (TierName × List Record)) (uncat : List Record)
    (preserve : Bool) : List Record × List Record :=
  let tierSplits := cfgs.map fun p =>
    let l := ((tiered.find? fun q => q.1 == p.1).map fun q => q.2).getD []
    splitTier preserve p.2.keep (sortTsDesc l) 0
  let keptTiered := tierSplits.flatMap fun s => s.1
  let delTiered := tierSplits.flatMap fun s => s.2
  let u := uncatSplit preserve uncat 0
  (keptTiered ++ u.1, delTiered ++ u.2)

/-- The retention planning step of `apply_tiered_retention` (lines 70-80):
sort records newest-first, categorize into tiers, apply the retention
rules.  Returns `(keep_list, delete_list)`. -/
def planRetention (now : Int) (tiers : Tiers) (records : List Record)
    (preserve : Bool) : List Record × List Record :=
  let sorted := sortTsDesc records
  let c := categorizeIntoTiers now tiers sorted
  applyRetentionRules (tierCfgList tiers) c.1 c.2 preserve

/-! ## Equivalence of the source categorization with its record-first form -/

theorem bucketFree_eq_with (tn : TierName) (acc : List Record) (b : Record) :
    bucketFree tn acc b = bucketFreeWith sameBucket tn acc b := rfl

theorem tierPass_assigned_mono (now : Int) (tn : TierName) (cfg : TierCfg)
    (backups : List Record) :
    ∀ (assigned : List String) (acc : List Record) (s : String),
      s ∈ assigned → s ∈ (tierPass now tn cfg backups assigned acc).2 := by
  induction backups with
  | nil => intro assigned acc s hs; simpa [tierPass] using hs
  | cons b rest ih =>
    intro assigned acc s hs
    simp only [tierPass]
    split
    · exact ih assigned acc s hs
    · split
      · exact ih _ _ s (List.mem_cons_of_mem _ hs)
      · exact ih assigned acc s hs

theorem tierPass_assigned_sub (now : Int) (tn : TierName) (cfg : TierCfg)
    (backups : List Record) :
    ∀ (assigned : List String) (acc : List Record) (s : String),
      s ∈ (tierPass now tn cfg backups assigned acc).2 →
        s ∈ assigned ∨ s ∈ backups.map Record.name := by
  induction backups with
  | nil => intro assigned acc s hs; simpa [tierPass] using hs
  | cons b rest ih =>
    intro assigned acc s hs
    simp only [tierPass] at hs
    split at hs
    · rcases ih assigned acc s hs with h | h
      · exact Or.inl h
      · exact Or.inr (by simpa using Or.inr (by simpa using h))
    · split at hs
      · rcases ih _ _ s hs with h | h
        · rcases List.mem_cons.mp h with h | h
          · exact Or.inr (by simp [h])
          · exact Or.inl h
        · exact Or.inr (by simp [List.mem_map] at h ⊢; exact Or.inr h)
      · rcases ih assigned acc s hs with h | h
        · exact Or.inl h
        · exact Or.inr (by simp [List.mem_map] at h ⊢; exact Or.inr h)

theorem tierPass_cons_skip (now : Int) (tn : TierName) (cfg : TierCfg)
    (b : Record) (rest : List Record) (assigned : List String)
    (acc : List Record) (h : b.name ∈ assigned) :
    tierPass now tn cfg (b :: rest) assigned acc =
      tierPass now tn cfg rest assigned acc := by
  simp [tierPass, h]

theorem tierPass_cons_take (now : Int) (tn : TierName) (cfg : TierCfg)
    (b : Record) (rest : List Record) (assigned : List String)
    (acc : List Record) (h1 : b.name ∉ assigned)
    (h2 : (fitsWindow now tn cfg b && bucketFree tn acc b) = true) :
    tierPass now tn cfg (b :: rest) assigned acc =
      tierPass now tn cfg rest (b.name :: assigned) (acc ++ [b]) := by
  simp only [tierPass]
  rw [if_neg (by simpa using h1), if_pos h2]

theorem tierPass_cons_pass (now : Int) (tn : TierName) (cfg : TierCfg)
    (b : Record) (rest : List Record) (assigned : List String)
    (acc : List Record) (h1 : b.name ∉ assigned)
    (h2 : (fitsWindow now tn cfg b && bucketFree tn acc b) = false) :
    tierPass now tn cfg (b :: rest) assigned acc =
      tierPass now tn cfg rest assigned acc := by
  simp only [tierPass]
  rw [if_neg (by simpa using h1), if_neg (by simp [h2])]

theorem greedy_cons_take (sb : TierName → Record → Record → Bool) (now : Int)
    (tn : TierName) (cfg : TierCfg) (b : Record) (rest : List Record)
    (acc : List Record)
    (h : (fitsWindow now tn cfg b && bucketFreeWith sb tn acc b) = true) :
    greedy sb now tn cfg (b :: rest) acc =
      greedy sb now tn cfg rest (acc ++ [b]) := by
  simp only [greedy]
  rw [if_pos h]

theorem greedy_cons_pass (sb : TierName → Record → Record → Bool) (now : Int)
    (tn : TierName) (cfg : TierCfg) (b : Record) (rest : List Record)
    (acc : List Record)
    (h : (fitsWindow now tn cfg b && bucketFreeWith sb tn acc b) = false) :
    greedy sb now tn cfg (b :: rest) acc =
      ((greedy sb now tn cfg rest acc).1, b :: (greedy sb now tn cfg rest acc).2) := by
  simp only [greedy]
  rw [if_neg (by simp [h])]

theorem tierPass_eq_greedy (now : Int) (tn : TierName) (cfg : TierCfg)
    (backups : List Record) :
    ∀ (assigned : List String) (acc : List Record),
      backups.Pairwise (fun a b => a.name ≠ b.name) →
      (tierPass now tn cfg backups assigned acc).1 =
        (greedy sameBucket now tn cfg
          (backups.filter fun b => !assigned.contains b.name) acc).1
      ∧ backups.filter
          (fun b => !(tierPass now tn cfg backups assigned acc).2.contains b.name) =
        (greedy sameBucket now tn cfg
          (backups.filter fun b => !assigned.contains b.name) acc).2 := by
  induction backups with
  | nil => intro assigned acc _; simp [tierPass, greedy]
  | cons b rest ih =>
    intro assigned acc hp
    have hpb : ∀ x ∈ rest, b.name ≠ x.name := (List.pairwise_cons.mp hp).1
    have hpr : rest.Pairwise (fun a c => a.name ≠ c.name) :=
      (List.pairwise_cons.mp hp).2
    by_cases hb : b.name ∈ assigned
    · have hmono : b.name ∈ (tierPass now tn cfg rest assigned acc).2 :=
        tierPass_assigned_mono now tn cfg rest assigned acc b.name hb
      rw [tierPass_cons_skip now tn cfg b rest assigned acc hb,
        List.filter_cons_of_neg (by simpa using hb),
        List.filter_cons_of_neg (by simpa using hmono)]
      exact ih assigned acc hpr
    · rw [List.filter_cons_of_pos (by simpa using hb)]
      by_cases hc : (fitsWindow now tn cfg b && bucketFree tn acc b) = true
      · have hcong : (rest.filter fun x => !(b.name :: assigned).contains x.name) =
            rest.filter fun x => !assigned.contains x.name := by
          apply List.filter_congr
          intro x hx
          have hne : x.name ≠ b.name := fun he => hpb x hx he.symm
          simp [hne]
        have ihh := ih (b.name :: assigned) (acc ++ [b]) hpr
        rw [hcong] at ihh
        have hmono : b.name ∈
            (tierPass now tn cfg rest (b.name :: assigned) (acc ++ [b])).2 :=
          tierPass_assigned_mono now tn cfg rest _ _ b.name (List.mem_cons_self _ _)
        rw [tierPass_cons_take now tn cfg b rest assigned acc hb hc,
          greedy_cons_take sameBucket now tn cfg b _ acc
            (by rw [← bucketFree_eq_with]; exact hc),
          List.filter_cons_of_neg (by simpa using hmono)]
        exact ihh
      · have hcb : (fitsWindow now tn cfg b && bucketFree tn acc b) = false :=
          Bool.eq_false_iff.mpr hc
        have hnotin : b.name ∉ (tierPass now tn cfg rest assigned acc).2 := by
          intro hmem
          rcases tierPass_assigned_sub now tn cfg rest assigned acc b.name hmem with h | h
          · exact hb h
          · rcases List.mem_map.mp h with ⟨x, hx, hxe⟩
            exact hpb x hx hxe.symm
        have ihh := ih assigned acc hpr
        rw [tierPass_cons_pass now tn cfg b rest assigned acc hb hcb,
          greedy_cons_pass sameBucket now tn cfg b _ acc
            (by rw [← bucketFree_eq_with]; exact hcb),
          List.filter_cons_of_pos (by simpa using hnotin)]
        exact ⟨ihh.1, by rw [ihh.2]⟩

theorem catLoop_eq_peelCat (now : Int) (cfgs : List (TierName × TierCfg)) :
    ∀ (backups : List Record) (assigned : List String),
      backups.Pairwise (fun a b => a.name ≠ b.name) →
      (catLoop now cfgs backups assigned).1 =
        (peelCat sameBucket now cfgs
          (backups.filter fun b => !assigned.contains b.name)).1
      ∧ backups.filter
          (fun b => !(catLoop now cfgs backups assigned).2.contains b.name) =
        (peelCat sameBucket now cfgs
          (backups.filter fun b => !assigned.contains b.name)).2 := by
  induction cfgs with
  | nil => intro backups assigned _; simp [catLoop, peelCat]
  | cons hd rest ih =>
    intro backups assigned hp
    obtain ⟨tn, cfg⟩ := hd
    have ha := tierPass_eq_greedy now tn cfg backups assigned [] hp
    have ihh := ih backups (tierPass now tn cfg backups assigned []).2 hp
    rw [ha.2] at ihh
    constructor
    · show ((tn, (tierPass now tn cfg backups assigned []).1) ::
          (catLoop now rest backups (tierPass now tn cfg backups assigned []).2).1) = _
      rw [ha.1, ihh.1]
      rfl
    · show backups.filter
          (fun b => !(catLoop now rest backups
            (tierPass now tn cfg backups assigned []).2).2.contains b.name) = _
      rw [ihh.2]
      rfl

theorem rfRun_nil_state (sb : TierName → Record → Record → Bool) (now : Int) :
    ∀ backups : List Record, rfRun sb now [] backups = ([], backups) := by
  intro backups
  induction backups with
  | nil => simp [rfRun]
  | cons b rest ih => simp [rfRun, rfInsert, ih]

theorem rfRun_cons_state (sb : TierName → Record → Record → Bool) (now : Int)
    (tn : TierName) (cfg : TierCfg) (backups : List Record) :
    ∀ (accHead : List Record)
      (stateRest : List (TierName × TierCfg × List Record)),
      rfRun sb now ((tn, cfg, accHead) :: stateRest) backups =
        ((tn, cfg, (greedy sb now tn cfg backups accHead).1) ::
            (rfRun sb now stateRest (greedy sb now tn cfg backups accHead).2).1,
          (rfRun sb now stateRest (greedy sb now tn cfg backups accHead).2).2) := by
  induction backups with
  | nil =>
    intro accHead stateRest
    simp [rfRun, greedy, rfRun_nil_state]
  | cons b rest ih =>
    intro accHead stateRest
    by_cases hc : (fitsWindow now tn cfg b && bucketFreeWith sb tn accHead b) = true
    · rw [greedy_cons_take sb now tn cfg b rest accHead hc]
      have hstep : rfRun sb now ((tn, cfg, accHead) :: stateRest) (b :: rest) =
          rfRun sb now ((tn, cfg, accHead ++ [b]) :: stateRest) rest := by
        simp only [rfRun, rfInsert]
        rw [if_pos hc]
      rw [hstep]
      exact ih (accHead ++ [b]) stateRest
    · have hcb : (fitsWindow now tn cfg b && bucketFreeWith sb tn accHead b) = false :=
        Bool.eq_false_iff.mpr hc
      rw [greedy_cons_pass sb now tn cfg b rest accHead hcb]
      cases hins : rfInsert sb now b stateRest with
      | some rest2 =>
        have hstep : rfRun sb now ((tn, cfg, accHead) :: stateRest) (b :: rest) =
            rfRun sb now ((tn, cfg, accHead) :: rest2) rest := by
          simp only [rfRun, rfInsert]
          rw [if_neg (by simp [hcb]), hins]
        have hstep2 : rfRun sb now stateRest
            (b :: (greedy sb now tn cfg rest accHead).2) =
            rfRun sb now rest2 (greedy sb now tn cfg rest accHead).2 := by
          simp only [rfRun]
          rw [hins]
        rw [hstep, hstep2]
        exact ih accHead rest2
      | none =>
        have hstep : rfRun sb now ((tn, cfg, accHead) :: stateRest) (b :: rest) =
            ((rfRun sb now ((tn, cfg, accHead) :: stateRest) rest).1,
              b :: (rfRun sb now ((tn, cfg, accHead) :: stateRest) rest).2) := by
          simp only [rfRun, rfInsert]
          rw [if_neg (by simp [hcb]), hins]
        have hstep2 : rfRun sb now stateRest
            (b :: (greedy sb now tn cfg rest accHead).2) =
            ((rfRun sb now stateRest (greedy sb now tn cfg rest accHead).2).1,
              b :: (rfRun sb now stateRest (greedy sb now tn cfg rest accHead).2).2) := by
          simp only [rfRun]
          rw [hins]
        rw [hstep, hstep2, ih accHead stateRest]

theorem rfRun_eq_peelCat (sb : TierName → Record → Record → Bool) (now : Int)
    (cfgs : List (TierName × TierCfg)) :
    ∀ backups : List Record,
      ((rfRun sb now (cfgs.map fun p => (p.1, p.2, ([] : List Record))) backups).1.map
          fun s => (s.1, s.2.2),
        (rfRun sb now (cfgs.map fun p => (p.1, p.2, ([] : List Record))) backups).2) =
        peelCat sb now cfgs backups := by
  induction cfgs with
  | nil => intro backups; simp [rfRun_nil_state, peelCat]
  | cons hd rest ih =>
    intro backups
    obtain ⟨tn, cfg⟩ := hd
    rw [List.map_cons, rfRun_cons_state sb now tn cfg backups []]
    have ihh := ih (greedy sb now tn cfg backups []).2
    show ((tn, (greedy sb now tn cfg backups []).1) :: _, _) = _
    rw [peelCat]
    have h1 := congrArg Prod.fst ihh
    have h2 := congrArg Prod.snd ihh
    rw [Prod.mk.injEq]
    exact ⟨by rw [← h1], h2⟩

theorem categorize_eq_peelCat (now : Int) (tiers : Tiers) (backups : List Record)
    (hp : backups.Pairwise (fun a b => a.name ≠ b.name)) :
    categorizeIntoTiers now tiers backups =
      peelCat sameBucket now (tierCfgList tiers) backups := by
  have h := catLoop_eq_peelCat now (tierCfgList tiers) backups [] hp
  have hfe : (backups.filter fun b => !([] : List String).contains b.name) = backups := by
    simp
  rw [hfe] at h
  unfold categorizeIntoTiers
  rw [Prod.mk.injEq]
  exact ⟨h.1, h.2⟩

/-- The source's categorization coincides with its record-first description
(first fitting tier in hourly→yearly order, with the source's period
buckets) whenever the record names are pairwise distinct — which holds for
real inputs, since the records are distinct files of one directory. -/
theorem categorize_eq_recordFirst (now : Int) (tiers : Tiers)
    (backups : List Record)
    (hp : backups.Pairwise (fun a b => a.name ≠ b.name)) :
    categorizeIntoTiers now tiers backups = recordFirstCat now tiers backups := by
  rw [categorize_eq_peelCat now tiers backups hp]
  unfold recordFirstCat recordFirstCatWith
  rw [rfRun_eq_peelCat sameBucket now (tierCfgList tiers) backups]

/-! ## Tagged records never reach the delete list -/

theorem splitTier_delete_not_tagged (keepCount : Nat) :
    ∀ (l : List Record) (i : Nat) (b : Record),
      b ∈ (splitTier true keepCount l i).2 → b.tagged = false := by
  intro l
  induction l with
  | nil => intro i b h; simp [splitTier] at h
  | cons c rest ih =>
    intro i b h
    by_cases hc : ((true && c.tagged) || decide (i < keepCount)) = true
    · rw [splitTier, if_pos hc] at h
      exact ih (i + 1) b h
    · have hcb := Bool.eq_false_iff.mpr hc
      rw [splitTier, if_neg hc] at h
      rcases List.mem_cons.mp h with h | h
      · subst h
        simp only [Bool.true_and, Bool.or_eq_false_iff] at hcb
        exact hcb.1
      · exact ih (i + 1) b h

theorem uncatSplit_delete_not_tagged :
    ∀ (l : List Record) (kept : Nat) (b : Record),
      b ∈ (uncatSplit true l kept).2 → b.tagged = false := by
  intro l
  induction l with
  | nil => intro kept b h; simp [uncatSplit] at h
  | cons c rest ih =>
    intro kept b h
    by_cases ht : (true && c.tagged) = true
    · rw [uncatSplit, if_pos ht] at h
      exact ih (kept + 1) b h
    · have htb := Bool.eq_false_iff.mpr ht
      by_cases hk : kept < UNCATEGORIZED_ARCHIVE_KEEP
      · rw [uncatSplit, if_neg ht, if_pos hk] at h
        exact ih (kept + 1) b h
      · rw [uncatSplit, if_neg ht, if_neg hk] at h
        rcases List.mem_cons.mp h with h | h
        · subst h
          simpa using htb
        · exact ih kept b h

theorem applyRetentionRules_delete_not_tagged
    (cfgs : List (TierName × TierCfg)) (tiered : List (TierName × List Record))
    (uncat : List Record) (b : Record)
    (h : b ∈ (applyRetentionRules cfgs tiered uncat true).2) : b.tagged = false := by
  unfold applyRetentionRules at h
  rcases List.mem_append.mp h with h | h
  · rcases List.mem_flatMap.mp h with ⟨s, hs, hbs⟩
    rcases List.mem_map.mp hs with ⟨p, _, hpe⟩
    subst hpe
    exact splitTier_delete_not_tagged p.2.keep _ 0 b hbs
  · exact uncatSplit_delete_not_tagged uncat 0 b h

/-! ## Concrete fixtures for witnesses and counterexamples -/

/-- Metadata of an untagged backup (empty tags, normal importance). -/
def normalMeta : Metadata := ⟨[], false, false, some "normal"⟩

/-- Metadata of a tagged backup (one tag). -/
def taggedMeta : Metadata := ⟨["production"], false, false, some "normal"⟩

/-- A backup taken at 01:56:40 on 1970-01-01 (epoch second 7000). -/
def recA : Record := ⟨"proj_19700101_015640_full.tar.gz", 7000, 10, normalMeta⟩

/-- A backup taken at 01:53:20 on the same day (epoch second 6800), in the
same hour slot as `recA`. -/
def recB : Record := ⟨"proj_19700101_015320_full.tar.gz", 6800, 10, normalMeta⟩

/-- A tagged backup record. -/
def recT : Record := ⟨"proj_19700101_000000_full.tar.gz", 0, 5, taggedMeta⟩

/-- The source's `DEFAULT_TIERS` configuration. -/
def defaultTiers : Tiers :=
  ⟨some ⟨24, 24⟩, some ⟨7, 7⟩, some ⟨4, 4⟩, some ⟨12, 12⟩, some ⟨5, 5⟩⟩

/-! ## Claim C1 -/

/-- C1 counterexample: at `now` = epoch second 7200 with the default tiers,
the code (`_categorize_into_tiers`) assigns both `recA` and `recB` to the
hourly tier even though they occupy the same hour slot, whereas the claim's
rule (period bucket also for hourly, `claimCat`) would send `recB` to the
daily tier.  This refutes the claim that a record is assigned only to a
tier "whose period bucket (hour slot for hourly, ...) is not yet occupied". -/
theorem c1_counterexample :
    categorizeIntoTiers 7200 defaultTiers [recA, recB] =
      ([(.hourly, [recA, recB]), (.daily, []), (.weekly, []), (.monthly, []),
        (.yearly, [])], [])
    ∧ claimCat 7200 defaultTiers [recA, recB] =
      ([(.hourly, [recA]), (.daily, [recB]), (.weekly, []), (.monthly, []),
        (.yearly, [])], [])
    ∧ hourOfTs recA.ts = hourOfTs recB.ts ∧ recA ≠ recB := by
  refine ⟨by decide, by decide, by decide, by decide⟩

/-- C1 (amended): for every list of backup records with pairwise-distinct
names and every tier configuration, `_categorize_into_tiers` computes
exactly the record-first assignment: each record goes to the first tier in
hourly→daily→weekly→monthly→yearly order whose age window it fits and whose
period bucket (calendar day for daily, ISO week for weekly, calendar month
for monthly, calendar year for yearly — the hourly tier has NO period
bucket, any record inside its age window fits) is not yet occupied by an
already-assigned record; records fitting no tier are uncategorized, and no
record is assigned to more than one tier (the output of `recordFirstCat`
places each record in exactly one list). -/
theorem c1_amended_theorem (now : Int) (tiers : Tiers) (backups : List Record)
    (hp : backups.Pairwise (fun a b => a.name ≠ b.name)) :
    categorizeIntoTiers now tiers backups = recordFirstCat now tiers backups :=
  categorize_eq_recordFirst now tiers backups hp

/-- C1 witness: the amended theorem applied at a concrete two-record input. -/
theorem c1_witness :
    ([recA, recB].Pairwise fun a b => a.name ≠ b.name)
    ∧ categorizeIntoTiers 7200 defaultTiers [recA, recB] =
        recordFirstCat 7200 defaultTiers [recA, recB] :=
  ⟨by decide, c1_amended_theorem 7200 defaultTiers [recA, recB] (by decide)⟩

/-! ## Claim C2 -/

/-- C2: when `preserve_tagged` is true, no tagged backup (non-empty tags,
`keep_forever`, `pinned`, or importance other than normal — the `tagged`
flag computed by `_get_backups_with_metadata`) ever appears in the delete
list of the retention planning step, for any record history and any tier
configuration, whether the backup lands in a tier or is uncategorized. -/
theorem c2_theorem (now : Int) (tiers : Tiers) (records : List Record)
    (b : Record) (hb : b.tagged = true) :
    b ∉ (planRetention now tiers records true).2 := by
  intro h
  unfold planRetention at h
  have := applyRetentionRules_delete_not_tagged (tierCfgList tiers)
    (categorizeIntoTiers now tiers (sortTsDesc records)).1
    (categorizeIntoTiers now tiers (sortTsDesc records)).2 b h
  rw [hb] at this
  exact Bool.true_eq_false.mp this

/-- C2 witness: a concrete tagged record is not in the delete list of a
concrete plan. -/
theorem c2_witness :
    recT.tagged = true
    ∧ recT ∉ (planRetention 1000000000 defaultTiers [recT, recA, recB] true).2 :=
  ⟨by decide, c2_theorem 1000000000 defaultTiers [recT, recA, recB] recT (by decide)⟩

/-! ## `backup_project` control flow (`src/core/backup_engine.py`)

The identifier check, precondition chain, disk-space check, backup-type
selection, archive write, snapshot save and finalization of
`backup_project` (lines 388-642) are modelled as a pure function of an
environment recording the configuration and which effectful steps succeed.
Filesystem primitives whose failure the source does not observe separately
(directory creation, the unlink in the cleanup handler) are modelled as
succeeding. -/

/-- Character class of `_validate_identifier`'s regex
`^[a-zA-Z0-9_\-\.]+$` (line 263). -/
def identChar (c : Char) : Bool :=
  c.isAlpha || c.isDigit || c == '_' || c == '-' || c == '.'

/-- Non-empty all-in-class check, the `[...]+` part of the regex. -/
def identCore (l : List Char) : Bool := !l.isEmpty && l.all identChar

/-- Python `re.match(r"^[a-zA-Z0-9_\-\.]+$", s)` semantics: the whole
string is in the class, or everything before a single final newline is
(Python's `$` also matches just before a trailing newline). -/
def identMatches (s : String) : Bool :=
  identCore s.toList ||
    (match s.toList.getLast? with
     | some c => c == '\n' && identCore s.toList.dropLast
     | none => false)

/-- Outcome of a public operation: an uncaught exception propagated to the
caller, or an explicit `(success, message)` tuple. -/
inductive Outcome where
  | raised (msg : String)
  | result (ok : Bool) (msg : String)
deriving DecidableEq, Repr

/-- Whether an outcome is a success result. -/
def isSuccess : Outcome → Bool
  | .result true _ => true
  | _ => false

/-- Whether an outcome is a propagated exception. -/
def isRaised : Outcome → Bool
  | .raised _ => true
  | _ => false

/-- The backup type chosen by `backup_project`. -/
inductive BackupType where
  | full | incremental
deriving DecidableEq, Repr

/-- Environment of one `backup_project` run: the item's configuration state
and which effectful steps succeed.  `estimatedSize` is the
`_estimate_project_size` result in bytes and `freeBytes` the `statvfs`
available bytes; `statvfsFails` models `_check_disk_space`'s
catch-and-skip of a raising `statvfs`.  `snapshotLoads` models
`json.load` on the snapshot file succeeding; `incrSnapshotNonempty` models
`new_snapshot` being non-empty after an incremental archive write. -/
structure ProjectEnv where
  name : String
  projectFound : Bool
  backupEnabled : Bool
  pathExists : Bool
  hasBackupToday : Bool
  estimatedSize : Nat
  freeBytes : Nat
  statvfsFails : Bool
  fullBackupExists : Bool
  snapshotFileExists : Bool
  snapshotLoads : Bool
  incrSnapshotNonempty : Bool
  archiveWriteOk : Bool
  snapshotWriteOk : Bool
  finalizeOk : Bool
deriving DecidableEq, Repr

/-- The disk-space precondition of `backup_project` (lines 427-437):
required space is `int(estimated_size * 0.7)` (the compression estimate)
and the check fails when `available < required * 1.2`; both float factors
are modelled exactly as rationals.  A raising `statvfs` makes
`_check_disk_space` return success ("check skipped"). -/
def spaceCheckOk (e : ProjectEnv) : Bool :=
  e.statvfsFails || !(10 * e.freeBytes < 12 * (7 * e.estimatedSize / 10))

/-- Whether the run stays incremental (lines 456-505): incremental was
requested, a prior full backup exists, and the snapshot file does not exist
while failing to load.  (A missing snapshot file does NOT degrade the type:
the run proceeds as an incremental against an empty snapshot.) -/
def effectiveIncremental (e : ProjectEnv) (incrementalReq : Bool) : Bool :=
  (incrementalReq && e.fullBackupExists) &&
    !(e.snapshotFileExists && !e.snapshotLoads)

/-- The backup type chosen by lines 472-480 plus the degradation at
lines 498-505. -/
def chosenType (e : ProjectEnv) (incrementalReq : Bool) : BackupType :=
  if effectiveIncremental e incrementalReq then .incremental else .full

/-- Whether the snapshot file is (re)written (lines 567-601): always
attempted for a full backup, attempted for an incremental backup with a
non-empty new snapshot; an exception in the write itself is caught and
only logged. -/
def snapshotSaved (e : ProjectEnv) (incrementalReq : Bool) : Bool :=
  (if effectiveIncremental e incrementalReq then e.incrSnapshotNonempty else true)
    && e.snapshotWriteOk

/-- Result of one `backup_project` run: outcome, whether a (possibly
partial) archive file remains on disk, whether the snapshot file was
rewritten, and the chosen backup type (`none` when the run never reached
type selection). -/
structure BackupResult where
  outcome : Outcome
  archiveOnDisk : Bool
  snapshotWritten : Bool
  backupType : Option BackupType
deriving DecidableEq, Repr

/-- `backup_project` (lines 388-642): identifier validation (raises
`ValueError` — outside the `try` block), configuration lookups, path and
already-ran-today preconditions, the disk-space check, then inside the
`try`: archive write, snapshot save (best-effort), finalization; any
exception in the `try` deletes the partial archive and returns a failure
result. -/
def backupProject (e : ProjectEnv) (incrementalReq skipIfToday : Bool) :
    BackupResult :=
  if !identMatches e.name then
    ⟨.raised "Invalid project name", false, false, none⟩
  else if !e.projectFound then
    ⟨.result false "Project not found in configuration", false, false, none⟩
  else if !e.backupEnabled then
    ⟨.result false "Backup disabled for project", false, false, none⟩
  else if !e.pathExists then
    ⟨.result false "Project path does not exist", false, false, none⟩
  else if skipIfToday && e.hasBackupToday then
    ⟨.result true "Skipped: backup already exists for today", false, false, none⟩
  else if !spaceCheckOk e then
    ⟨.result false "Insufficient disk space", false, false, none⟩
  else if !e.archiveWriteOk then
    ⟨.result false "Backup failed: archive error", false, false,
      some (chosenType e incrementalReq)⟩
  else if !e.finalizeOk then
    ⟨.result false "Backup failed: finalize error", false,
      snapshotSaved e incrementalReq, some (chosenType e incrementalReq)⟩
  else
    ⟨.result true "Backup successful", true, snapshotSaved e incrementalReq,
      some (chosenType e incrementalReq)⟩

/-! ## Batch orchestration (`backup_all_projects`, lines 1416-1458) -/

/-- The per-item wrapper of the parallel path: `future.result()` with the
`except` clause converting a propagated exception into a failure result for
that item. -/
def runItem (incr skip : Bool) (e : ProjectEnv) : Bool × String :=
  match (backupProject e incr skip).outcome with
  | .raised m => (false, "Backup failed: " ++ m)
  | .result ok m => (ok, m)

/-- The sequential path (lines 1429-1434): items processed in order; a
propagated exception aborts the whole batch (there is no `except` around
the sequential calls). -/
def seqRun (incr skip : Bool) :
    List ProjectEnv → Except String (List (String × Bool × String))
  | [] => .ok []
  | e :: rest =>
    match (backupProject e incr skip).outcome with
    | .raised m => .error m
    | .result ok m => (seqRun incr skip rest).map fun l => (e.name, ok, m) :: l

/-- `backup_all_projects`: sequential when `not parallel or len <= 1`, else
the thread-pool path (modelled as an order-preserving map, since each
item's work depends only on its own environment). -/
def backupAllProjects (parallel : Bool) (envs : List ProjectEnv)
    (incr skip : Bool) : Except String (List (String × Bool × String)) :=
  if !parallel || envs.length ≤ 1 then seqRun incr skip envs
  else .ok (envs.map fun e => (e.name, runItem incr skip e))

/-! ## Environments for witnesses and counterexamples -/

/-- A fully healthy environment: valid name, item configured and enabled,
source present, plenty of space, prior full backup and loadable snapshot,
all effectful steps succeeding. -/
def goodEnv : ProjectEnv :=
  { name := "proj", projectFound := true, backupEnabled := true,
    pathExists := true, hasBackupToday := false, estimatedSize := 1000,
    freeBytes := 100000, statvfsFails := false, fullBackupExists := true,
    snapshotFileExists := true, snapshotLoads := true,
    incrSnapshotNonempty := true, archiveWriteOk := true,
    snapshotWriteOk := true, finalizeOk := true }

/-- Healthy run that fails during finalization. -/
def envFinalizeFail : ProjectEnv := { goodEnv with finalizeOk := false }

/-- Healthy incremental run whose snapshot file is absent. -/
def envNoSnapshot : ProjectEnv := { goodEnv with snapshotFileExists := false }

/-- Environment whose project name contains a space. -/
def envBadName : ProjectEnv := { goodEnv with name := "bad name" }

/-- Healthy environment under a given name. -/
def envOk (n : String) : ProjectEnv := { goodEnv with name := n }

/-- Five-item batch in which only the third item's source path is missing. -/
def fiveEnvs : List ProjectEnv :=
  [envOk "p1", envOk "p2", { goodEnv with name := "p3", pathExists := false },
    envOk "p4", envOk "p5"]

/-! ## Claim C3 -/

/-- C3 counterexample: with every step healthy except finalization
(`envFinalizeFail`), `backup_project` returns a failure result and deletes
the archive, but the snapshot file HAS been rewritten — refuting the
claim's "the SnapshotIndex file is left untouched" for failures at a later
stage. -/
theorem c3_counterexample :
    isSuccess (backupProject envFinalizeFail false false).outcome = false
    ∧ (backupProject envFinalizeFail false false).snapshotWritten = true
    ∧ (backupProject envFinalizeFail false false).archiveOnDisk = false := by
  refine ⟨by decide, by decide, by decide⟩

/-- C3 (amended): whenever `backup_project` does not succeed, no archive
file remains; the snapshot file is written only after a successful archive
write; a failed run has touched the snapshot only in the case where the
archive write succeeded and the failure arose during finalization; and a
failing disk-space precondition (free < required × 1.2 with required =
estimate × 0.7) yields exactly the failure result with nothing written. -/
theorem c3_amended_theorem (e : ProjectEnv) (incrReq skip : Bool) :
    (isSuccess (backupProject e incrReq skip).outcome = false →
      (backupProject e incrReq skip).archiveOnDisk = false)
    ∧ ((backupProject e incrReq skip).snapshotWritten = true →
        e.archiveWriteOk = true)
    ∧ (isSuccess (backupProject e incrReq skip).outcome = false →
        (backupProject e incrReq skip).snapshotWritten = true →
        e.archiveWriteOk = true ∧ e.finalizeOk = false)
    ∧ (spaceCheckOk e = false → identMatches e.name = true →
        e.projectFound = true → e.backupEnabled = true → e.pathExists = true →
        (skip && e.hasBackupToday) = false →
        backupProject e incrReq skip =
          ⟨.result false "Insufficient disk space", false, false, none⟩) := by
  unfold backupProject
  split_ifs <;> simp_all [isSuccess]

/-- C3 witness: the amended theorem applied to a concrete environment whose
disk-space check fails. -/
theorem c3_witness :
    spaceCheckOk { goodEnv with freeBytes := 100 } = false
    ∧ backupProject { goodEnv with freeBytes := 100 } false false =
        ⟨.result false "Insufficient disk space", false, false, none⟩ :=
  ⟨by decide,
    (c3_amended_theorem { goodEnv with freeBytes := 100 } false false).2.2.2
      (by decide) (by decide) (by decide) (by decide) (by decide) (by decide)⟩

/-! ## Claim C6 -/

/-- C6 counterexample: with a prior full backup present but the snapshot
file absent, `backup_project` does NOT degrade to a full backup — the run
stays incremental (against an empty snapshot) and succeeds, refuting the
claim that an absent SnapshotIndex file produces a full backup. -/
theorem c6_counterexample :
    (backupProject envNoSnapshot true false).backupType = some .incremental
    ∧ envNoSnapshot.fullBackupExists = true
    ∧ envNoSnapshot.snapshotFileExists = false
    ∧ isSuccess (backupProject envNoSnapshot true false).outcome = true := by
  refine ⟨by decide, by decide, by decide, by decide⟩

/-- C6 (amended): when an incremental backup is requested and the run's
preconditions pass, the run degrades to a full backup exactly when no prior
full backup exists or the snapshot file exists but fails to parse; an
absent snapshot file leaves the run incremental (against an empty
snapshot).  The degradation never raises: with a valid name the outcome
is always an explicit result. -/
theorem c6_amended_theorem (e : ProjectEnv)
    (h1 : identMatches e.name = true) (h2 : e.projectFound = true)
    (h3 : e.backupEnabled = true) (h4 : e.pathExists = true)
    (h5 : spaceCheckOk e = true) :
    (backupProject e true false).backupType =
      some (if !e.fullBackupExists || (e.snapshotFileExists && !e.snapshotLoads)
        then BackupType.full else BackupType.incremental)
    ∧ isRaised (backupProject e true false).outcome = false := by
  have hct : chosenType e true =
      (if !e.fullBackupExists || (e.snapshotFileExists && !e.snapshotLoads)
        then BackupType.full else BackupType.incremental) := by
    unfold chosenType effectiveIncremental
    cases hfb : e.fullBackupExists <;>
      cases hsf : e.snapshotFileExists <;>
        cases hsl : e.snapshotLoads <;> simp
  unfold backupProject
  split_ifs <;> simp_all [isRaised]

/-- C6 witness: the amended theorem applied to the healthy environment
(full backup present, snapshot loads), where the run stays incremental. -/
theorem c6_witness :
    identMatches goodEnv.name = true
    ∧ spaceCheckOk goodEnv = true
    ∧ (backupProject goodEnv true false).backupType = some .incremental
    ∧ isRaised (backupProject goodEnv true false).outcome = false :=
  ⟨by decide, by decide,
    by simpa using (c6_amended_theorem goodEnv (by decide) (by decide)
      (by decide) (by decide) (by decide)).1,
    (c6_amended_theorem goodEnv (by decide) (by decide) (by decide)
      (by decide) (by decide)).2⟩

/-! ## Claim C9 -/

/-- C9 counterexample: a project name containing a space makes
`backup_project` raise (`_validate_identifier`'s `ValueError` is thrown
before the `try` block), instead of returning a failure result. -/
theorem c9_counterexample :
    (backupProject envBadName false false).outcome = .raised "Invalid project name"
    ∧ identMatches envBadName.name = false := by
  refine ⟨by decide, by decide⟩

/-- C9 (amended): `backup_project` propagates an exception to its caller
exactly when the item name fails `_validate_identifier`'s character-class
check; every other input produces an explicit `(success, message)` result
(expected failures — unknown item, disabled backup, missing source,
insufficient space, and exceptions inside the `try` block — are all
converted to failure results). -/
theorem c9_amended_theorem (e : ProjectEnv) (incrReq skip : Bool) :
    isRaised (backupProject e incrReq skip).outcome = true ↔
      identMatches e.name = false := by
  unfold backupProject
  split_ifs <;> simp_all [isRaised]

/-! ## Claim C10 -/

/-- C10 counterexample: a one-item batch is run on the sequential path,
where a propagated exception (invalid configured name) aborts the batch
with an exception instead of being converted into that item's failure
result — the batch returns no result map at all. -/
theorem c10_counterexample :
    backupAllProjects true [envBadName] false false =
      .error "Invalid project name" := by
  rfl

/-- C10 (amended): with the default `parallel=True` and at least two items,
`backup_all_projects` runs the worker-pool path and returns a result for
every item, each item's entry depending only on that item's environment,
with a propagated exception converted into that item's failure result (so
one item's failure never aborts its siblings).  On the sequential path
(N ≤ 1 or `parallel=False`) an exception from the per-item operation
propagates and aborts the batch. -/
theorem c10_amended_theorem (envs : List ProjectEnv) (incr skip : Bool)
    (h : 2 ≤ envs.length) :
    backupAllProjects true envs incr skip =
      .ok (envs.map fun e => (e.name, runItem incr skip e)) := by
  have hlen : ¬ envs.length ≤ 1 := by omega
  simp [backupAllProjects, hlen]

/-- C10 witness: the five-item batch with item 3's source missing returns
success for items 1, 2, 4, 5 and failure only for item 3. -/
theorem c10_witness :
    2 ≤ fiveEnvs.length
    ∧ backupAllProjects true fiveEnvs false false =
      .ok [("p1", true, "Backup successful"), ("p2", true, "Backup successful"),
        ("p3", false, "Project path does not exist"),
        ("p4", true, "Backup successful"), ("p5", true, "Backup successful")] :=
  ⟨by decide, by
    rw [c10_amended_theorem fiveEnvs false false (by decide)]
    rfl⟩

/-! ## Finalization (`_finalize_backup`, lines 166-226, and `_smart_copy`,
lines 854-889)

All four backup kinds (project, complete, database, git) finalize through
the shared `_finalize_backup`.  Its five steps are modelled as transitions
on an item-directory state, each appending its step marker to a trace.  A
file is its `(size, sha256-digest)` pair; the digest function is injective
in the model (a digest stands for the content). -/

/-- The five finalization operations, in a claim-neutral order of
declaration. -/
inductive FinStep where
  | chmod | checksumMetadata | syncSecondary | latestSymlink | retentionCleanup
deriving DecidableEq, Repr

/-- An on-disk artifact as finalization sees it: size and digest. -/
structure FileInfo where
  size : Nat
  digest : Nat
deriving DecidableEq, Repr

/-- `_smart_copy`: copy unless the destination exists and matches by size
and then by checksum; returns whether a copy happened and the resulting
destination content. -/
def smartCopy (src : FileInfo) (dst : Option FileInfo) : Bool × FileInfo :=
  match dst with
  | none => (true, src)
  | some d =>
    if src.size != d.size then (true, src)
    else if src.digest != d.digest then (true, src)
    else (false, d)

/-- State of an item's backup directory (and its mirror) during
finalization. -/
structure FinalizeState where
  artifactMode : Nat
  sidecarChecksum : Option Nat
  mirrorArtifact : Option FileInfo
  mirrorSidecar : Bool
  latest : Option String
  retentionLocal : Bool
  retentionMirror : Bool
  trace : List FinStep
deriving DecidableEq, Repr

/-- `_finalize_backup`: chmod the artifact to `0o600`, create the metadata
sidecar with the computed checksum, mirror artifact and sidecar to
secondary storage via `_smart_copy` (when a distinct sync root is
configured), update the `latest` symlink, and run retention cleanup on the
local directory and (when syncing) the mirror directory — in exactly the
source's order. -/
def finalizeBackup (artifact : FileInfo) (backupName : String)
    (syncEnabled : Bool) (st : FinalizeState) : FinalizeState :=
  let st1 := { st with
    artifactMode := 384,
    trace := st.trace ++ [FinStep.chmod] }
  let st2 := { st1 with
    sidecarChecksum := some artifact.digest,
    trace := st1.trace ++ [FinStep.checksumMetadata] }
  let st3 :=
    if syncEnabled then
      { st2 with
        mirrorArtifact := some (smartCopy artifact st2.mirrorArtifact).2,
        mirrorSidecar := true,
        trace := st2.trace ++ [FinStep.syncSecondary] }
    else { st2 with trace := st2.trace ++ [FinStep.syncSecondary] }
  let st4 := { st3 with
    latest := some backupName,
    trace := st3.trace ++ [FinStep.latestSymlink] }
  { st4 with
    retentionLocal := true,
    retentionMirror := syncEnabled,
    trace := st4.trace ++ [FinStep.retentionCleanup] }

/-- A fresh item-directory state with no mirror content. -/
def initFinState : FinalizeState := ⟨0, none, none, false, none, false, false, []⟩

/-- The `_smart_copy` skip rule: the copy is skipped exactly when the
destination exists and matches the source by size and digest. -/
theorem smartCopy_skip_iff (src : FileInfo) (dst : Option FileInfo) :
    (smartCopy src dst).1 = false ↔ dst = some src := by
  rcases dst with _ | d
  · simp [smartCopy]
  · obtain ⟨s1, g1⟩ := src
    obtain ⟨s2, g2⟩ := d
    by_cases h1 : s1 = s2
    · subst h1
      by_cases h2 : g1 = g2
      · subst h2
        simp [smartCopy]
      · have h2s : ¬g2 = g1 := fun hx => h2 hx.symm
        simp [smartCopy, h2, h2s]
    · have h1s : ¬s2 = s1 := fun hx => h1 hx.symm
      simp [smartCopy, h1, h1s]

/-! ## Claim C4 -/

/-- C4 counterexample: the actual finalization order is chmod → checksum
metadata → secondary mirror → latest symlink → retention, which differs
from the claim's chmod → checksum → latest symlink → mirror → retention:
the source updates the symlink AFTER the mirror step, not before. -/
theorem c4_counterexample :
    (finalizeBackup ⟨10, 5⟩ "b.tar.gz" true initFinState).trace =
      [.chmod, .checksumMetadata, .syncSecondary, .latestSymlink,
        .retentionCleanup]
    ∧ (finalizeBackup ⟨10, 5⟩ "b.tar.gz" true initFinState).trace ≠
      [.chmod, .checksumMetadata, .latestSymlink, .syncSecondary,
        .retentionCleanup] := by
  refine ⟨by decide, by decide⟩

/-- C4 (amended): finalization after every backup kind (all four kinds call
the shared `_finalize_backup`) performs exactly these steps, strictly
sequentially, in this order: chmod the artifact owner-only, compute and
persist the checksum in the metadata sidecar, best-effort mirror the
artifact and sidecar to secondary storage (skipping the copy exactly when
the destination exists and matches by size then checksum), update the
`latest` symlink, and run retention cleanup on the item's local and mirror
directories. -/
theorem c4_amended_theorem (artifact : FileInfo) (backupName : String)
    (syncEnabled : Bool) (st : FinalizeState) (h : st.trace = []) :
    (finalizeBackup artifact backupName syncEnabled st).trace =
      [.chmod, .checksumMetadata, .syncSecondary, .latestSymlink,
        .retentionCleanup]
    ∧ (finalizeBackup artifact backupName syncEnabled st).artifactMode = 384
    ∧ (finalizeBackup artifact backupName syncEnabled st).sidecarChecksum =
        some artifact.digest
    ∧ (finalizeBackup artifact backupName syncEnabled st).latest = some backupName
    ∧ (finalizeBackup artifact backupName syncEnabled st).retentionLocal = true
    ∧ (finalizeBackup artifact backupName syncEnabled st).retentionMirror =
        syncEnabled
    ∧ (syncEnabled = true →
        (finalizeBackup artifact backupName syncEnabled st).mirrorArtifact =
          some (smartCopy artifact st.mirrorArtifact).2)
    ∧ ((smartCopy artifact st.mirrorArtifact).1 = false ↔
        st.mirrorArtifact = some artifact) := by
  unfold finalizeBackup
  cases hs : syncEnabled <;> simp_all [smartCopy_skip_iff]

/-- C4 witness: the amended theorem at a concrete artifact with a mirror
that already matches by size and checksum (so the copy is skipped). -/
theorem c4_witness :
    ({ initFinState with mirrorArtifact := some ⟨10, 5⟩ } : FinalizeState).trace = []
    ∧ ((finalizeBackup ⟨10, 5⟩ "b.tar.gz" true
        { initFinState with mirrorArtifact := some ⟨10, 5⟩ }).trace =
      [.chmod, .checksumMetadata, .syncSecondary, .latestSymlink,
        .retentionCleanup]
      ∧ (smartCopy ⟨10, 5⟩ (some ⟨10, 5⟩)).1 = false) := by
  refine ⟨rfl, (c4_amended_theorem ⟨10, 5⟩ "b.tar.gz" true
    { initFinState with mirrorArtifact := some ⟨10, 5⟩ } rfl).1, ?_⟩
  exact (c4_amended_theorem ⟨10, 5⟩ "b.tar.gz" true
    { initFinState with mirrorArtifact := some ⟨10, 5⟩ } rfl).2.2.2.2.2.2.2.mpr rfl

/-! ## The incremental filter (`filter_func` inside `backup_project`,
lines 513-560)

A tar entry is modelled by its archive name, kind flags, mtime, size and
mode; the compiled exclusion regexes are an opaque boolean predicate on the
archive name (they are built once from the configured glob patterns); the
SnapshotIndex is an association list from archive name to its recorded
`(mtime, size)`. -/

/-- One tar entry as `filter_func` sees it. -/
structure TarInfo where
  name : String
  isDir : Bool
  isReg : Bool
  mtime : Int
  size : Int
  mode : Nat
deriving DecidableEq, Repr

/-- A SnapshotIndex entry: recorded mtime and size. -/
structure SnapEntry where
  mtime : Int
  size : Int
deriving DecidableEq, Repr

/-- Split a character list on a separator, keeping empty pieces: the
semantics of Python's `str.split("/")` (and of `String.splitOn "/"`),
implemented over `List Char` so that it evaluates inside the kernel. -/
def splitOnChar (sep : Char) : List Char → List (List Char)
  | [] => [[]]
  | c :: rest =>
    let r := splitOnChar sep rest
    if c == sep then [] :: r
    else
      match r with
      | [] => [[c]]
      | h :: t => (c :: h) :: t

example : splitOnChar '/' "proj/a/b".toList =
  ["proj".toList, "a".toList, "b".toList] := by decide
example : splitOnChar '/' "a//b".toList = ["a".toList, [], "b".toList] := by decide
example : splitOnChar '/' "".toList = [[]] := by decide

/-- The always-on exclusion (lines 516-520): any path component after the
root project folder starting with `_` or `.` (`tarinfo.name.split("/")`,
then `startswith` on the components past the first). -/
def hiddenComponent (name : String) : Bool :=
  match splitOnChar '/' name.toList with
  | [] => false
  | _ :: rest =>
    rest.any fun p =>
      match p with
      | [] => false
      | c :: _ => c == '_' || c == '.'

/-- `filter_func`: hidden-component exclusion, then the compiled exclusion
patterns, then (for an incremental run) the snapshot check — directories
always pass, a non-directory entry is skipped exactly when its snapshot
entry exists with `tarinfo.mtime <= old_mtime and tarinfo.size ==
old_size`.  Returns `none` when the entry is omitted from the archive. -/
def filterFunc (excluded : String → Bool) (isIncr : Bool)
    (snapshot : List (String × SnapEntry)) (t : TarInfo) : Option TarInfo :=
  if hiddenComponent t.name then none
  else if excluded t.name then none
  else if isIncr then
    if t.isDir then some t
    else
      match snapshot.lookup t.name with
      | some e => if t.mtime ≤ e.mtime && t.size == e.size then none else some t
      | none => some t
  else some t

/-! ## Claim C5 -/

/-- A regular file whose current mtime (50) is older than its recorded
mtime (100), with unchanged size. -/
def tOlderMtime : TarInfo := ⟨"proj/a.txt", false, true, 50, 10, 420⟩

/-- The snapshot recording mtime 100 and size 10 for that file. -/
def snapOlder : List (String × SnapEntry) := [("proj/a.txt", ⟨100, 10⟩)]

/-- C5 counterexample: during an incremental backup, a regular file whose
recorded mtime DIFFERS from its current value (recorded 100, current 50)
but whose size is unchanged is still omitted, because the source's skip
condition is `mtime <= old_mtime` rather than equality — refuting "a
regular file whose recorded mtime ... differs from its current values ...
is always included". -/
theorem c5_counterexample :
    filterFunc (fun _ => false) true snapOlder tOlderMtime = none
    ∧ tOlderMtime.isReg = true
    ∧ snapOlder.lookup tOlderMtime.name = some ⟨100, 10⟩
    ∧ tOlderMtime.mtime ≠ (100 : Int) := by
  refine ⟨by decide, by decide, by decide, by decide⟩

/-- C5 (amended): during an incremental project backup, a non-directory
entry that passes the exclusion filters is omitted from the archive exactly
when its SnapshotIndex entry exists with unchanged size and with current
mtime not newer than the recorded mtime (`mtime <= old_mtime`); in
particular an entry with no SnapshotIndex entry, with a changed size, or
with a newer mtime is always included, and non-excluded directories are
always traversed (returned unchanged). -/
theorem c5_amended_theorem (excluded : String → Bool)
    (snapshot : List (String × SnapEntry)) (t : TarInfo)
    (h1 : hiddenComponent t.name = false) (h2 : excluded t.name = false) :
    (t.isDir = true → filterFunc excluded true snapshot t = some t)
    ∧ (t.isDir = false →
        (filterFunc excluded true snapshot t = none ↔
          ∃ e, snapshot.lookup t.name = some e ∧
            t.mtime ≤ e.mtime ∧ t.size = e.size)) := by
  constructor
  · intro hd
    simp [filterFunc, h1, h2, hd]
  · intro hd
    simp only [filterFunc, h1, h2, hd]
    cases hl : snapshot.lookup t.name with
    | none => simp
    | some e =>
      by_cases hc : (t.mtime ≤ e.mtime && t.size == e.size) = true
      · have hc2 := hc
        simp only [Bool.and_eq_true, decide_eq_true_eq, beq_iff_eq] at hc2
        simp [hc, hc2]
      · have hc2 := Bool.eq_false_iff.mpr hc
        simp only [Bool.and_eq_true, decide_eq_true_eq, beq_iff_eq] at hc
        simp only [Bool.if_false_right, Bool.if_true_left]
        simp [hc2, hc]

/-- C5 witness: the amended theorem applied to an unchanged regular file
(equal mtime and size — omitted) and read off through the iff. -/
theorem c5_witness :
    hiddenComponent "proj/b.txt" = false
    ∧ filterFunc (fun _ => false) true [("proj/b.txt", ⟨100, 10⟩)]
        ⟨"proj/b.txt", false, true, 100, 10, 420⟩ = none :=
  ⟨by decide,
    ((c5_amended_theorem (fun _ => false) [("proj/b.txt", ⟨100, 10⟩)]
      ⟨"proj/b.txt", false, true, 100, 10, 420⟩ (by decide) (by decide)).2
        (by decide)).mpr ⟨⟨100, 10⟩, by decide, by decide, by decide⟩⟩

/-! ## Archive extraction safety (`_safe_extractall`, lines 289-310, and
`selective_restore`, lines 2213-2327)

A tar member is its archive name plus symlink/hardlink flags.  Path names
are interpreted lexically: `Path(name).parts` drops empty and `.`
components and keeps `..`; `resolve()` on a join is modelled as lexical
normalization (no symlinks on the destination disk). -/

/-- A tar archive member. -/
structure Member where
  name : String
  isSym : Bool
  isLnk : Bool
deriving DecidableEq, Repr

/-- `Path(name).parts` for path-safety checks: split on `/`, dropping
empty and `.` components (Python's `PurePath` keeps `..`).  Components are
character lists so everything evaluates inside the kernel. -/
def pathParts (s : String) : List (List Char) :=
  (splitOnChar '/' s.toList).filter fun p => !(p.isEmpty || p == ['.'])

/-- `os.path.isabs` on POSIX: the name begins with `/`. -/
def isAbsPath (s : String) : Bool :=
  match s.toList with
  | [] => false
  | c :: _ => c == '/'

/-- The first rejection test of `_safe_extractall` (line 300): absolute
name or a `..` component. -/
def unsafeMemberName (s : String) : Bool :=
  isAbsPath s || (pathParts s).contains ['.', '.']

/-- Lexical model of `(target / name).resolve()`: an absolute member name
replaces the target (Python `/` semantics), `..` pops a component; no
symlink indirection (the destination is fresh). -/
def joinResolve (target : List (List Char)) (s : String) : List (List Char) :=
  let base := if isAbsPath s then [] else target
  (pathParts s).foldl
    (fun acc p => if p == ['.', '.'] then acc.dropLast else acc ++ [p]) base

/-- The second test of `_safe_extractall` (line 303): the resolved path
starts with `target + os.sep` or equals the target. -/
def insideTarget (target : List (List Char)) (s : String) : Bool :=
  target.isPrefixOf (joinResolve target s)

/-- The strict containment test of `selective_restore` (line 305): the
resolved path must start with `target + os.sep` (equality is rejected). -/
def strictlyInside (target : List (List Char)) (s : String) : Bool :=
  target.isPrefixOf (joinResolve target s) && joinResolve target s != target

/-- `_safe_extractall`: scan all members first, raising on the first unsafe
one; only if every member passes is `tar.extractall` invoked on the full
safe list (the returned `.ok` payload is the list of extracted members). -/
def safeExtractAll (target : List (List Char)) : List Member → Except String (List Member)
  | [] => .ok []
  | m :: rest =>
    if unsafeMemberName m.name || !insideTarget target m.name then
      .error ("Tar member " ++ m.name ++ " would extract outside target directory")
    else (safeExtractAll target rest).map fun l => m :: l

/-- The members `restore_project`'s extraction actually writes: all of them
on success, none when `_safe_extractall` raised. -/
def extractedByRestore (target : List (List Char)) (members : List Member) : List Member :=
  match safeExtractAll target members with
  | .ok l => l
  | .error _ => []

/-- `Path(name).name` for the flatten mode of `selective_restore`: the last
path component (empty when there is none). -/
def basenameOf (s : String) : String :=
  String.mk (((pathParts s).getLast?).getD [])

/-- The flatten step of `selective_restore` (line 2300): with
`preserve_structure` the member keeps its name, otherwise the name is
flattened to its basename before the path check and extraction. -/
def selName (preserve : Bool) (m : Member) : Member :=
  if preserve then m else { m with name := basenameOf m.name }

/-- One iteration of `selective_restore`'s member loop (lines 2287-2317):
skip names already restored, record the name, optionally flatten, skip
members escaping the target, skip symlink/hardlink members (logged), else
extract.  The state is `(files_found, restored-in-order)`. -/
def selStep (target : List (List Char)) (preserve : Bool)
    (st : List String × List Member) (m : Member) : List String × List Member :=
  if st.1.contains m.name then st
  else if !strictlyInside target (selName preserve m).name then
    (m.name :: st.1, st.2)
  else if (selName preserve m).isSym || (selName preserve m).isLnk then
    (m.name :: st.1, st.2)
  else
    (m.name :: st.1, st.2 ++ [selName preserve m])

/-- The iteration order of `selective_restore` (lines 2283-2288): archives
outer (incremental first, then its base), then the requested patterns, then
the archive's members matching the pattern (`fnmatch` is the opaque
`matchFn`, an external stdlib collaborator). -/
def selectiveMatches (matchFn : String → String → Bool) (patterns : List String)
    (archives : List (List Member)) : List Member :=
  archives.flatMap fun ms =>
    patterns.flatMap fun p => ms.filter fun m => matchFn m.name p

/-- The members extracted by `selective_restore`. -/
def selectiveRestoreMembers (matchFn : String → String → Bool)
    (target : List (List Char)) (preserve : Bool) (patterns : List String)
    (archives : List (List Member)) : List Member :=
  ((selectiveMatches matchFn patterns archives).foldl (selStep target preserve)
    ([], [])).2

/-! ## Claim C7 -/

/-- C7: if any member of the archive has an absolute name or a `..`
component, `_safe_extractall` raises before `tar.extractall` is invoked, so
no member at all is extracted. -/
theorem c7_theorem (target : List (List Char)) (members : List Member)
    (h : ∃ m ∈ members, unsafeMemberName m.name = true) :
    (∃ msg, safeExtractAll target members = .error msg)
    ∧ extractedByRestore target members = [] := by
  induction members with
  | nil => simp at h
  | cons m rest ih =>
    by_cases hm : (unsafeMemberName m.name || !insideTarget target m.name) = true
    · constructor
      · refine ⟨"Tar member " ++ m.name ++ " would extract outside target directory", ?_⟩
        simp [safeExtractAll, hm]
      · simp [extractedByRestore, safeExtractAll, hm]
    · rcases h with ⟨m0, hm0mem, hm0⟩
      rcases List.mem_cons.mp hm0mem with he | hin
      · subst he
        exact absurd (by simp [hm0]) hm
      · have ihh := ih ⟨m0, hin, hm0⟩
        rcases ihh.1 with ⟨msg, hmsg⟩
        refine ⟨⟨msg, ?_⟩, ?_⟩
        · simp [safeExtractAll, hm, hmsg, Except.map]
        · simp [extractedByRestore, safeExtractAll, hm, hmsg, Except.map]

/-- A harmless regular member. -/
def mOk : Member := ⟨"proj/ok.txt", false, false⟩

/-- A member attempting path traversal. -/
def mEvil : Member := ⟨"proj/../../evil.txt", false, false⟩

/-- A symlink member with a safe archive name. -/
def mSym : Member := ⟨"proj/link", true, false⟩

/-- The restore destination used by the concrete extraction fixtures. -/
def destTarget : List (List Char) := ["dest".toList]

/-- C7 witness: an archive holding one safe and one traversal member is
rejected whole — nothing is extracted. -/
theorem c7_witness :
    (∃ m ∈ [mOk, mEvil], unsafeMemberName m.name = true)
    ∧ (∃ msg, safeExtractAll destTarget [mOk, mEvil] = .error msg)
    ∧ extractedByRestore destTarget [mOk, mEvil] = [] :=
  ⟨⟨mEvil, by decide, by decide⟩,
    (c7_theorem destTarget [mOk, mEvil] ⟨mEvil, by decide, by decide⟩).1,
    (c7_theorem destTarget [mOk, mEvil] ⟨mEvil, by decide, by decide⟩).2⟩

/-! ## Claim C8 -/

/-- C8 counterexample: `restore_project` extracts through
`_safe_extractall`, which has NO symlink/hardlink handling: a symlink
member with a safe name is extracted like any other member — refuting
"symlinks ... are skipped and logged, and are never extracted" for the
full-restore path. -/
theorem c8_counterexample :
    safeExtractAll destTarget [mSym] = .ok [mSym] ∧ mSym.isSym = true := by
  refine ⟨rfl, rfl⟩

theorem selStep_preserves_no_links (target : List (List Char)) (preserve : Bool) :
    ∀ (l : List Member) (st : List String × List Member),
      (∀ m ∈ st.2, m.isSym = false ∧ m.isLnk = false) →
      ∀ m ∈ (l.foldl (selStep target preserve) st).2,
        m.isSym = false ∧ m.isLnk = false := by
  intro l
  induction l with
  | nil => intro st hst m hm; exact hst m hm
  | cons c rest ih =>
    intro st hst m hm
    refine ih (selStep target preserve st c) ?_ m hm
    intro x hx
    unfold selStep at hx
    by_cases h1 : st.1.contains c.name
    · rw [if_pos h1] at hx
      exact hst x hx
    · rw [if_neg h1] at hx
      by_cases h2 : (!strictlyInside target (selName preserve c).name) = true
      · rw [if_pos h2] at hx
        exact hst x hx
      · rw [if_neg h2] at hx
        by_cases h3 : ((selName preserve c).isSym || (selName preserve c).isLnk) = true
        · rw [if_pos h3] at hx
          exact hst x hx
        · rw [if_neg h3] at hx
          rcases List.mem_append.mp hx with hx | hx
          · exact hst x hx
          · rcases List.mem_singleton.mp hx with rfl
            have h3b := Bool.eq_false_iff.mpr h3
            simp only [Bool.or_eq_false_iff] at h3b
            exact h3b

/-- C8 (amended): only `selective_restore` skips symlink and hardlink
members — no member it extracts is a symlink or hardlink, for any patterns,
archives (incremental chain included), target and flatten mode.
`restore_project`'s `_safe_extractall`, in contrast, extracts every member
whose name passes the path-safety checks, symlinks and hardlinks included
(on Python ≥ 3.12 the stdlib `filter="data"` adds its own restrictions, but
the engine itself never skips links there). -/
theorem c8_amended_theorem (matchFn : String → String → Bool)
    (target : List (List Char)) (preserve : Bool) (patterns : List String)
    (archives : List (List Member)) (members : List Member)
    (hsafe : ∀ m ∈ members,
      (unsafeMemberName m.name || !insideTarget target m.name) = false) :
    (∀ m ∈ selectiveRestoreMembers matchFn target preserve patterns archives,
      m.isSym = false ∧ m.isLnk = false)
    ∧ safeExtractAll target members = .ok members := by
  constructor
  · intro m hm
    exact selStep_preserves_no_links target preserve _ ([], []) (by simp) m hm
  · induction members with
    | nil => rfl
    | cons c rest ih =>
      have hc := hsafe c (List.mem_cons_self _ _)
      have hrest : ∀ m ∈ rest,
          (unsafeMemberName m.name || !insideTarget target m.name) = false :=
        fun m hm => hsafe m (List.mem_cons_of_mem _ hm)
      simp [safeExtractAll, hc, ih hrest, Except.map]

/-- C8 witness: a selective restore over an archive holding a regular file
and a symlink extracts only the regular file-shaped members (the symlink is
skipped), while `_safe_extractall` accepts the same two members whole. -/
theorem c8_witness :
    (∀ m ∈ selectiveRestoreMembers (fun n p => n == p) destTarget true
        ["proj/ok.txt", "proj/link"] [[mOk, mSym]],
      m.isSym = false ∧ m.isLnk = false)
    ∧ safeExtractAll destTarget [mOk, mSym] = .ok [mOk, mSym] :=
  c8_amended_theorem (fun n p => n == p) destTarget true
    ["proj/ok.txt", "proj/link"] [[mOk, mSym]] [mOk, mSym] (by decide)

end QMaster
